import Mathlib

/-!
Verification of the domain logic of the Partilio backend: the split calculator,
the payment-schedule generator, payment status transitions, and the auth
rate limiter.  Monetary amounts are modelled in integer cents; percentages
in thousandths of a percent (so 100% = 100000); calendar dates as explicit
(year, month, day) triples.
-/

namespace Partilio

/-- A calendar date: year, month (1–12), day (1–31). -/
structure SDate where
  year : Nat
  month : Nat
  day : Nat
deriving DecidableEq

/-- Gregorian leap-year rule. -/
def isLeapYear (y : Nat) : Bool :=
  (y % 4 == 0 && y % 100 != 0) || y % 400 == 0

/-- Number of days in a month of a given year. -/
def daysInMonth (y m : Nat) : Nat :=
  if m = 2 then (if isLeapYear y then 29 else 28)
  else if m = 4 ∨ m = 6 ∨ m = 9 ∨ m = 11 then 30
  else 31

/-- Linear month counter: months elapsed since year 0, month 1. -/
def monthIndex (d : SDate) : Nat := d.year * 12 + (d.month - 1)

/-- Date from a linear month counter and a day. -/
def dateOfMonthIndex (k day : Nat) : SDate := ⟨k / 12, k % 12 + 1, day⟩

/-- JavaScript `Date.setMonth(getMonth() + i)` semantics, as used in
`ExpenseController.create`: the day of month is kept, and if it exceeds the
length of the target month the date rolls over into the following month. -/
def addMonthsJS (d : SDate) (i : Nat) : SDate :=
  let k := monthIndex d + i
  let dim := daysInMonth (k / 12) (k % 12 + 1)
  if d.day ≤ dim then dateOfMonthIndex k d.day
  else dateOfMonthIndex (k + 1) (d.day - dim)

/-- One requested split: a payer and a percentage in milli-percent
(33330 = 33.33%). -/
structure SplitInput where
  payerId : Nat
  percentage : Nat
deriving DecidableEq

/-- One computed split: payer, percentage, and an amount in cents. -/
structure SplitOutput where
  payerId : Nat
  percentage : Nat
  amount : Int
deriving DecidableEq

/-- Round-half-up of `amountCents * pct / 100000` (pct in milli-percent):
the per-split raw share rounded to whole cents. -/
def roundHalfUpShare (amountCents pct : Nat) : Nat :=
  (2 * (amountCents * pct) + 100000) / 200000

namespace FinancialUtils

/-- Predicate `better s t`: split `s` beats split `t` for drift absorption —
strictly larger percentage, or equal percentage and strictly lower payerId. -/
def better (s t : SplitInput) : Bool :=
  t.percentage < s.percentage ||
    (s.percentage == t.percentage && s.payerId < t.payerId)

/-- Index and value of the split that absorbs the rounding drift: the one
with the largest percentage, ties broken by lowest payerId (earlier entry
on a full tie). -/
def chooseSplit : List SplitInput → Option (Nat × SplitInput)
  | [] => none
  | s :: rest =>
    match chooseSplit rest with
    | none => some (0, s)
    | some (j, t) => if better t s then some (j + 1, t) else some (0, s)

/-- Per-split amounts rounded independently (half-up) to whole cents. -/
def roundedSplits (amountCents : Nat) (splits : List SplitInput) : List SplitOutput :=
  splits.map fun s => ⟨s.payerId, s.percentage, (roundHalfUpShare amountCents s.percentage : Int)⟩

/-- Sum of the amounts of a list of computed splits. -/
def splitsSum (outs : List SplitOutput) : Int := (outs.map SplitOutput.amount).sum

/-- Add `d` cents to the amount of the split at position `i`. -/
def applyDrift (i : Nat) (d : Int) : List SplitOutput → List SplitOutput
  | [] => []
  | s :: rest =>
    if i = 0 then { s with amount := s.amount + d } :: rest
    else s :: applyDrift (i - 1) d rest

/-- Modelled from the spec: `FinancialUtils.calculateSplits` (§4.2 of the
design document; its implementation file `src/utils/financial.ts` is not
present in the repository snapshot, only its callers and a stub).  For each
split the raw share `amount × percentage / 100` is rounded half-up to
cents; the drift `amount − Σ rounded` is then applied in full to the split
with the largest percentage (ties: lowest payerId). -/
def calculateSplits (amountCents : Nat) (splits : List SplitInput) : List SplitOutput :=
  let rounded := roundedSplits amountCents splits
  let drift : Int := (amountCents : Int) - splitsSum rounded
  match chooseSplit splits with
  | none => []
  | some (i, _) => applyDrift i drift rounded

/-- Result of split validation: a flag and a human-readable message. -/
structure SplitValidation where
  isValid : Bool
  message : String
deriving DecidableEq

/-- Sum of the percentages of a split set, in milli-percent. -/
def percentSum (splits : List SplitInput) : Nat :=
  (splits.map SplitInput.percentage).sum

/-- Render a milli-percent value as a decimal percentage string. -/
def formatPercent (p : Nat) : String :=
  toString (p / 1000) ++ "." ++ toString (p % 1000)

/-- The validation message naming the actual computed percentage sum. -/
def invalidSumMessage (total : Nat) : String :=
  "A soma das porcentagens deve ser 100%. Soma atual: " ++ formatPercent total ++ "%"

/-- Tolerance check: the percentage sum must be within ±0.01% of 100%
(strictly — a sum of exactly 99.99% or 100.01% is rejected, 99.999% is
accepted). -/
def withinTolerance (total : Nat) : Bool :=
  99990 < total && total < 100010

/-- Modelled from the spec: `FinancialUtils.validateSplits` (§4.2/§7; the
implementation file is absent from the snapshot).  Rejects an empty split
set, duplicate payer ids, non-positive percentages, and a percentage sum
outside ±0.01 of 100 — the latter with a message naming the computed sum. -/
def validateSplits (splits : List SplitInput) : SplitValidation :=
  if splits.isEmpty then ⟨false, "A divisão deve ter pelo menos um pagador"⟩
  else if (splits.map SplitInput.payerId).Nodup then
    if splits.any (fun s => s.percentage == 0) then
      ⟨false, "Todas as porcentagens devem ser maiores que zero"⟩
    else if withinTolerance (percentSum splits) then ⟨true, ""⟩
    else ⟨false, invalidSumMessage (percentSum splits)⟩
  else ⟨false, "Pagadores duplicados na divisão"⟩

end FinancialUtils

/-! ## Payment-schedule generation (`ExpenseController.create`, lines 240–291) -/

/-- One entry of a generated payment schedule. -/
structure ScheduleEntry where
  month : Nat
  year : Nat
  dueDate : SDate
deriving DecidableEq

namespace DateUtils

/-- Modelled from the spec: `DateUtils.calculateCreditCardDueDate` (§4.1;
its implementation file is absent from the snapshot).  A purchase on a day
on or after the `closingDay` of the card bills in the next cycle; the due
date is the `dueDay` of the card in the month after the closing month of
the cycle,
clamped to the last day of that month when `dueDay` does not exist in it. -/
def calculateCreditCardDueDate (paymentDate : SDate) (closingDay dueDay : Nat) : SDate :=
  let shift := if closingDay ≤ paymentDate.day then 2 else 1
  let k := monthIndex paymentDate + shift
  dateOfMonthIndex k (min dueDay (daysInMonth (k / 12) (k % 12 + 1)))

/-- Modelled from the spec: `DateUtils.generatePaymentSchedule` (§4.1; its
implementation file is absent from the snapshot).  Produces `n` monthly
entries starting at `startDate`, each due on day-of-month `dueDay`,
silently clamped to the last valid day of the target month. -/
def generatePaymentSchedule (startDate : SDate) (dueDay n : Nat) : List ScheduleEntry :=
  (List.range n).map fun i =>
    let k := monthIndex startDate + i
    ⟨k % 12 + 1, k / 12, ⟨k / 12, k % 12 + 1, min dueDay (daysInMonth (k / 12) (k % 12 + 1))⟩⟩

end DateUtils

/-- The expense types of the Prisma `ExpenseType` enum. -/
inductive ExpenseType
  | UNICA
  | RECORRENTE_FIXA
  | RECORRENTE_VARIAVEL
  | PARCELADA
  | CARTAO_CREDITO
deriving DecidableEq

/-- The billing-cycle fields of a credit card. -/
structure CreditCard where
  closingDay : Nat
  dueDay : Nat
deriving DecidableEq

/-- The fields of a created expense that drive schedule generation.
`dueDate` is a day of month; optional numeric fields are `Option` to model
SQL `NULL`/JS `undefined`. -/
structure ExpenseInput where
  type : ExpenseType
  startDate : SDate
  dueDate : Nat
  purchaseDate : Option SDate
  numberOfInstallments : Option Nat
  numberOfMonths : Option Nat
  creditCard : Option CreditCard
deriving DecidableEq

/-- JavaScript `a || b` on a nullable number: `null`, `undefined` and `0`
are falsy. -/
def jsOrNat (o : Option Nat) (dflt : Nat) : Nat :=
  match o with
  | none => dflt
  | some v => if v = 0 then dflt else v

/-- The credit-card branch of `ExpenseController.create` (lines 243–263):
for each installment `i`, the purchase date is stepped `i` months forward
with JS `setMonth` semantics and the billing-cycle rule of the card gives
the due date; the entry records the month and year of that due date. -/
def creditCardSchedule (purchase : SDate) (card : CreditCard) (n : Nat) : List ScheduleEntry :=
  (List.range n).map fun i =>
    let due := DateUtils.calculateCreditCardDueDate (addMonthsJS purchase i)
      card.closingDay card.dueDay
    ⟨due.month, due.year, due⟩

/-- The number of payments used by the non-card branch of
`ExpenseController.create` (lines 266–268):
`numberOfMonths || numberOfInstallments || (recurring ? 12 : 1)`. -/
def scheduleCount (e : ExpenseInput) : Nat :=
  jsOrNat e.numberOfMonths (jsOrNat e.numberOfInstallments
    (if e.type = ExpenseType.RECORRENTE_FIXA ∨ e.type = ExpenseType.RECORRENTE_VARIAVEL
      then 12 else 1))

/-- Schedule generation of `ExpenseController.create` (lines 240–275): the
credit-card branch runs only when the type is `CARTAO_CREDITO` and a card
record was found; otherwise the recurring schedule is used. -/
def generateExpenseSchedule (e : ExpenseInput) : List ScheduleEntry :=
  match e.type, e.creditCard with
  | ExpenseType.CARTAO_CREDITO, some card =>
    creditCardSchedule (e.purchaseDate.getD e.startDate) card
      (jsOrNat e.numberOfInstallments 1)
  | _, _ => DateUtils.generatePaymentSchedule e.startDate e.dueDate (scheduleCount e)

/-- Status of an `ExpensePayment` row (Prisma `ExpensePaymentStatus`). -/
inductive ExpensePaymentStatus
  | FUTURE
  | PENDING
  | OVERDUE
  | PAID
deriving DecidableEq

/-- A persisted `ExpensePayment` row as created at expense creation. -/
structure PaymentRow where
  month : Nat
  year : Nat
  amount : Nat
  dueDate : SDate
  status : ExpensePaymentStatus
deriving DecidableEq

/-- The payment rows written by `ExpenseController.create` (lines 277–291):
one per schedule entry, each carrying the calculated installment amount and
initial status `PENDING`. -/
def createPayments (e : ExpenseInput) (calculatedInstallmentAmount : Nat) : List PaymentRow :=
  (generateExpenseSchedule e).map fun s =>
    ⟨s.month, s.year, calculatedInstallmentAmount, s.dueDate, ExpensePaymentStatus.PENDING⟩

/-! ## Expense update (`ExpenseController.update`, lines 622–669) -/

/-- The persisted state of an expense that the split invariant talks
about: its installment amount (cents), division flag and split rows. -/
structure ExpenseState where
  installmentAmount : Nat
  isDivided : Bool
  splits : List SplitOutput
deriving DecidableEq

/-- The fields of an update request relevant to splits.  `none` models an
absent (`undefined`) field. -/
structure UpdateExpenseReq where
  installmentAmount : Option Nat
  isDivided : Option Bool
  splits : Option (List SplitInput)
deriving DecidableEq

/-- Embedding of `ExpenseController.update` (lines 622–669) restricted to the fields of
`ExpenseState`: `installmentAmount` is overwritten when present in the
request (an `!== undefined` check); the split rows are deleted and
recalculated only when the request carries both `splits` and a truthy
`isDivided`, using `updateData.installmentAmount || existing.installmentAmount`
as the amount to distribute; otherwise the existing split rows are kept. -/
def updateExpense (e : ExpenseState) (u : UpdateExpenseReq) : ExpenseState :=
  let amount := match u.installmentAmount with
    | some a => a
    | none => e.installmentAmount
  let splits := match u.splits, u.isDivided with
    | some s, some true =>
      FinancialUtils.calculateSplits (jsOrNat u.installmentAmount e.installmentAmount) s
    | _, _ => e.splits
  { e with installmentAmount := amount, splits := splits }

/-! ## Payment status operations (`PaymentController`) -/

/-- The state of one `ExpensePayment` row acted on by `PaymentController`;
instants are naturals (milliseconds since epoch). -/
structure PaymentState where
  status : ExpensePaymentStatus
  paidAt : Option Nat
  dueDate : Nat
deriving DecidableEq

/-- The status-changing operations of `PaymentController`:
`pay` is `markAsPaid`/`bulkMarkAsPaid` (lines 203–220), `revert` is
`revertPayment` (lines 382–397), `setDueDate` is `updateDueDate`
(lines 465–490), `refresh` is `updateOverduePayments` (lines 609–639). -/
inductive PayOp
  | pay (paidAtArg : Option Nat) (now : Nat)
  | revert
  | setDueDate (newDue now : Nat)
  | refresh (now : Nat)
deriving DecidableEq

/-- Embedding of `PaymentController.markAsPaid`: status becomes `PAID`, `paidAt` is the
supplied timestamp or `now`. -/
def markAsPaid (p : PaymentState) (paidAtArg : Option Nat) (now : Nat) : PaymentState :=
  { p with status := ExpensePaymentStatus.PAID, paidAt := some (paidAtArg.getD now) }

/-- Embedding of `PaymentController.revertPayment`: status becomes `PENDING` and
`paidAt` is cleared, whatever the previous status was. -/
def revertPayment (p : PaymentState) : PaymentState :=
  { p with status := ExpensePaymentStatus.PENDING, paidAt := none }

/-- Embedding of `PaymentController.updateDueDate` (lines 465–480): the due date is
replaced; a `PENDING` payment whose new due date is in the past becomes
`OVERDUE`, an `OVERDUE` payment whose new due date is not in the past
becomes `PENDING`. -/
def updateDueDate (p : PaymentState) (newDue now : Nat) : PaymentState :=
  let st :=
    if newDue < now ∧ p.status = ExpensePaymentStatus.PENDING then
      ExpensePaymentStatus.OVERDUE
    else if now ≤ newDue ∧ p.status = ExpensePaymentStatus.OVERDUE then
      ExpensePaymentStatus.PENDING
    else p.status
  { p with dueDate := newDue, status := st }

/-- First bulk update of `PaymentController.updateOverduePayments`:
`PENDING` with `dueDate < now` becomes `OVERDUE`. -/
def tickOverdue (p : PaymentState) (now : Nat) : PaymentState :=
  if p.status = ExpensePaymentStatus.PENDING ∧ p.dueDate < now then
    { p with status := ExpensePaymentStatus.OVERDUE }
  else p

/-- Second bulk update of `PaymentController.updateOverduePayments`:
`FUTURE` with `dueDate ≤ now` becomes `PENDING`. -/
def tickFuture (p : PaymentState) (now : Nat) : PaymentState :=
  if p.status = ExpensePaymentStatus.FUTURE ∧ p.dueDate ≤ now then
    { p with status := ExpensePaymentStatus.PENDING }
  else p

/-- Apply one `PaymentController` operation to a payment row. -/
def applyPaymentOp : PayOp → PaymentState → PaymentState
  | PayOp.pay paidAtArg now, p => markAsPaid p paidAtArg now
  | PayOp.revert, p => revertPayment p
  | PayOp.setDueDate newDue now, p => updateDueDate p newDue now
  | PayOp.refresh now, p => tickFuture (tickOverdue p now) now

/-- The transition relation asserted by the spec (§3): a status change is
allowed only if it is `FUTURE→PENDING` on a refresh once the due date
arrived, `PENDING→OVERDUE` once the due date passed, any
non-`PAID`→`PAID` on an explicit payment (setting `paidAt`), or
`PAID→PENDING` on an explicit revert (clearing `paidAt`). -/
def specAllowed (op : PayOp) (s t : PaymentState) : Bool :=
  s.status == t.status ||
    match op with
    | PayOp.pay _ _ =>
      !(s.status == ExpensePaymentStatus.PAID) &&
        t.status == ExpensePaymentStatus.PAID && t.paidAt.isSome
    | PayOp.revert =>
      s.status == ExpensePaymentStatus.PAID &&
        t.status == ExpensePaymentStatus.PENDING && t.paidAt == none
    | PayOp.setDueDate newDue now =>
      s.status == ExpensePaymentStatus.PENDING &&
        t.status == ExpensePaymentStatus.OVERDUE && decide (newDue < now)
    | PayOp.refresh now =>
      (s.status == ExpensePaymentStatus.FUTURE &&
        t.status == ExpensePaymentStatus.PENDING && decide (s.dueDate ≤ now)) ||
      (s.status == ExpensePaymentStatus.PENDING &&
        t.status == ExpensePaymentStatus.OVERDUE && decide (s.dueDate < now))

/-- The transition relation the code actually implements: like
`specAllowed`, but an explicit revert moves any status to `PENDING`, and
moving the due date out of the past returns an `OVERDUE` payment to
`PENDING`. -/
def codeAllowed (op : PayOp) (s t : PaymentState) : Bool :=
  s.status == t.status ||
    match op with
    | PayOp.pay _ _ =>
      !(s.status == ExpensePaymentStatus.PAID) &&
        t.status == ExpensePaymentStatus.PAID && t.paidAt.isSome
    | PayOp.revert =>
      t.status == ExpensePaymentStatus.PENDING && t.paidAt == none
    | PayOp.setDueDate newDue now =>
      (s.status == ExpensePaymentStatus.PENDING &&
        t.status == ExpensePaymentStatus.OVERDUE && decide (newDue < now)) ||
      (s.status == ExpensePaymentStatus.OVERDUE &&
        t.status == ExpensePaymentStatus.PENDING && decide (now ≤ newDue))
    | PayOp.refresh now =>
      (s.status == ExpensePaymentStatus.FUTURE &&
        t.status == ExpensePaymentStatus.PENDING && decide (s.dueDate ≤ now)) ||
      (s.status == ExpensePaymentStatus.PENDING &&
        t.status == ExpensePaymentStatus.OVERDUE && decide (s.dueDate < now))

/-! ## Auth rate limiter (`authRateLimit` middleware) -/

/-- The per-IP entry of the in-memory map of the rate limiter. -/
structure RateLimitEntry where
  count : Nat
  resetTime : Nat
deriving DecidableEq

/-- Outcome of one request through the limiter: passed to the handler, or
rejected with an HTTP status. -/
inductive RateLimitResult
  | allow
  | reject (status : Nat)
deriving DecidableEq

/-- One request of a fixed client IP through `authRateLimit` (middleware
lines 62–96), projected to the map entry of that IP: entries whose `resetTime`
has passed are evicted first; a missing entry is created with count 1 and
the request passes; a full entry (`count ≥ maxAttempts`) is left unchanged
and the request is answered 429; otherwise the count is incremented and
the request passes. -/
def authRateLimitStep (maxAttempts windowMs : Nat) (s : Option RateLimitEntry)
    (now : Nat) : Option RateLimitEntry × RateLimitResult :=
  let cur : Option RateLimitEntry :=
    match s with
    | some e => if e.resetTime < now then none else some e
    | none => none
  match cur with
  | none => (some ⟨1, now + windowMs⟩, RateLimitResult.allow)
  | some e =>
    if maxAttempts ≤ e.count then (some e, RateLimitResult.reject 429)
    else (some ⟨e.count + 1, e.resetTime⟩, RateLimitResult.allow)

/-- Number of requests in `ts` that the limiter passes through, starting
from entry state `s`. -/
def allowedCount (maxAttempts windowMs : Nat) (s : Option RateLimitEntry) :
    List Nat → Nat
  | [] => 0
  | t :: ts =>
    let r := authRateLimitStep maxAttempts windowMs s t
    (if r.2 = RateLimitResult.allow then 1 else 0) +
      allowedCount maxAttempts windowMs r.1 ts

/-! ## Lemmas about the split calculator -/

namespace FinancialUtils

theorem splitsSum_nil : splitsSum [] = 0 := rfl

theorem splitsSum_cons (s : SplitOutput) (l : List SplitOutput) :
    splitsSum (s :: l) = s.amount + splitsSum l := by
  simp [splitsSum]

theorem applyDrift_sum (d : Int) :
    ∀ (l : List SplitOutput) (i : Nat), i < l.length →
      splitsSum (applyDrift i d l) = splitsSum l + d := by
  intro l
  induction l with
  | nil => intro i hi; simp at hi
  | cons s rest ih =>
    intro i hi
    cases i with
    | zero => simp [applyDrift, splitsSum_cons]; ring
    | succ n =>
      have hn : n < rest.length := by simpa using hi
      simp only [applyDrift, Nat.succ_ne_zero, if_false, Nat.succ_sub_one]
      rw [splitsSum_cons, splitsSum_cons, ih n hn]
      ring

theorem applyDrift_get_ne (d : Int) :
    ∀ (l : List SplitOutput) (i j : Nat), j ≠ i →
      (applyDrift i d l).get? j = l.get? j := by
  intro l
  induction l with
  | nil => intro i j _; simp [applyDrift]
  | cons s rest ih =>
    intro i j hj
    cases i with
    | zero =>
      cases j with
      | zero => exact absurd rfl hj
      | succ k => simp [applyDrift]
    | succ n =>
      cases j with
      | zero => simp [applyDrift]
      | succ k =>
        have hk : k ≠ n := fun h => hj (by omega)
        simp only [applyDrift, Nat.succ_ne_zero, if_false, Nat.succ_sub_one,
          List.get?_cons_succ]
        exact ih n k hk

theorem chooseSplit_eq_none {l : List SplitInput} (h : chooseSplit l = none) :
    l = [] := by
  cases l with
  | nil => rfl
  | cons s rest =>
    exfalso
    simp only [chooseSplit] at h
    cases hr : chooseSplit rest with
    | none => rw [hr] at h; simp at h
    | some p =>
      obtain ⟨j, t⟩ := p
      rw [hr] at h
      by_cases hb : better t s = true
      · simp [hb] at h
      · simp [hb] at h

theorem chooseSplit_get {l : List SplitInput} {i : Nat} {s : SplitInput}
    (h : chooseSplit l = some (i, s)) : l.get? i = some s := by
  induction l generalizing i s with
  | nil => simp [chooseSplit] at h
  | cons a rest ih =>
    simp only [chooseSplit] at h
    cases hr : chooseSplit rest with
    | none =>
      rw [hr] at h
      simp only [Option.some.injEq, Prod.mk.injEq] at h
      obtain ⟨h1, h2⟩ := h
      subst h1; subst h2; rfl
    | some p =>
      obtain ⟨j, t⟩ := p
      rw [hr] at h
      by_cases hb : better t a = true
      · simp only [hb, if_true, Option.some.injEq, Prod.mk.injEq] at h
        obtain ⟨h1, h2⟩ := h
        subst h2
        cases i with
        | zero => omega
        | succ n =>
          have : n = j := by omega
          subst this
          simpa using ih hr
      · simp only [hb, Bool.false_eq_true, if_false, Option.some.injEq,
          Prod.mk.injEq] at h
        obtain ⟨h1, h2⟩ := h
        subst h1; subst h2; rfl

theorem better_irrefl (s : SplitInput) : better s s = false := by
  simp [better]

theorem better_asymm {s t : SplitInput} (h : better s t = true) :
    better t s = false := by
  simp only [better, Bool.or_eq_true, Bool.and_eq_true, Bool.or_eq_false_iff,
    Bool.and_eq_false_iff, decide_eq_true_eq, decide_eq_false_iff_not,
    beq_iff_eq, beq_eq_false_iff_ne, ne_eq] at h ⊢
  omega

theorem notBetter_trans {u t a : SplitInput} (h1 : better u t = false)
    (h2 : better t a = false) : better u a = false := by
  simp only [better, Bool.or_eq_false_iff, Bool.and_eq_false_iff,
    decide_eq_false_iff_not, beq_eq_false_iff_ne, ne_eq] at h1 h2 ⊢
  omega

theorem chooseSplit_best {l : List SplitInput} {i : Nat} {s : SplitInput}
    (h : chooseSplit l = some (i, s)) : ∀ u ∈ l, better u s = false := by
  induction l generalizing i s with
  | nil => simp [chooseSplit] at h
  | cons a rest ih =>
    simp only [chooseSplit] at h
    intro u hu
    cases hr : chooseSplit rest with
    | none =>
      have hrest : rest = [] := chooseSplit_eq_none hr
      rw [hr] at h
      simp only [Option.some.injEq, Prod.mk.injEq] at h
      obtain ⟨_, h2⟩ := h
      subst h2
      subst hrest
      simp only [List.mem_singleton] at hu
      subst hu
      exact better_irrefl _
    | some p =>
      obtain ⟨j, t⟩ := p
      rw [hr] at h
      by_cases hb : better t a = true
      · simp only [hb, if_true, Option.some.injEq, Prod.mk.injEq] at h
        obtain ⟨_, h2⟩ := h
        subst h2
        rcases List.mem_cons.mp hu with hua | hur
        · subst hua; exact better_asymm hb
        · exact ih hr u hur
      · simp only [hb, Bool.false_eq_true, if_false, Option.some.injEq,
          Prod.mk.injEq] at h
        obtain ⟨_, h2⟩ := h
        subst h2
        have hba : better t a = false := by
          revert hb; cases better t a <;> simp
        rcases List.mem_cons.mp hu with hua | hur
        · subst hua; exact better_irrefl _
        · exact notBetter_trans (ih hr u hur) hba

theorem calculateSplits_sum_eq (amountCents : Nat) (splits : List SplitInput)
    (h : splits ≠ []) :
    splitsSum (calculateSplits amountCents splits) = (amountCents : Int) := by
  cases hc : chooseSplit splits with
  | none => exact absurd (chooseSplit_eq_none hc) h
  | some p =>
    obtain ⟨i, s⟩ := p
    have hget := chooseSplit_get hc
    have hlt : i < splits.length := by
      rcases List.get?_eq_some.mp hget with ⟨hl, _⟩
      exact hl
    have hlen : i < (roundedSplits amountCents splits).length := by
      simpa [roundedSplits] using hlt
    simp only [calculateSplits, hc]
    rw [applyDrift_sum _ _ _ hlen]
    ring

end FinancialUtils

/-! ## Claims about the split calculator -/

/-- C1: for every split set accepted by `validateSplits` (1–20 payers,
percentages summing to 100 within tolerance) and every currency-precision
amount, the per-payer amounts returned by `calculateSplits` sum to exactly
the input amount, to the cent. -/
theorem C1_split_sum_exact (amountCents : Nat) (splits : List SplitInput)
    (hv : (FinancialUtils.validateSplits splits).isValid = true) :
    FinancialUtils.splitsSum (FinancialUtils.calculateSplits amountCents splits) =
      (amountCents : Int) := by
  cases splits with
  | nil => simp [FinancialUtils.validateSplits] at hv
  | cons s rest => exact FinancialUtils.calculateSplits_sum_eq _ _ (by simp)

theorem C1_split_sum_exact_witness :
    FinancialUtils.splitsSum
      (FinancialUtils.calculateSplits 10000 [⟨1, 33330⟩, ⟨2, 33330⟩, ⟨3, 33340⟩]) =
      (10000 : Int) :=
  C1_split_sum_exact 10000 [⟨1, 33330⟩, ⟨2, 33330⟩, ⟨3, 33340⟩] (by decide)

/-- C2: `calculateSplits` applies the whole rounding drift to exactly one
split — the split with the largest percentage, ties broken by lowest
payerId — leaving every other split at its independently rounded share;
being a pure function of its arguments, it is deterministic. -/
theorem C2_drift_single_argmax (amountCents : Nat) (splits : List SplitInput)
    (h : splits ≠ []) :
    ∃ i s, FinancialUtils.chooseSplit splits = some (i, s) ∧
      splits.get? i = some s ∧
      (∀ u ∈ splits, u.percentage < s.percentage ∨
        (u.percentage = s.percentage ∧ s.payerId ≤ u.payerId)) ∧
      FinancialUtils.calculateSplits amountCents splits =
        FinancialUtils.applyDrift i
          ((amountCents : Int) -
            FinancialUtils.splitsSum (FinancialUtils.roundedSplits amountCents splits))
          (FinancialUtils.roundedSplits amountCents splits) ∧
      (∀ j, j ≠ i →
        (FinancialUtils.calculateSplits amountCents splits).get? j =
          (FinancialUtils.roundedSplits amountCents splits).get? j) := by
  cases hc : FinancialUtils.chooseSplit splits with
  | none => exact absurd (FinancialUtils.chooseSplit_eq_none hc) h
  | some p =>
    obtain ⟨i, s⟩ := p
    refine ⟨i, s, rfl, FinancialUtils.chooseSplit_get hc, ?_, ?_, ?_⟩
    · intro u hu
      have hb := FinancialUtils.chooseSplit_best hc u hu
      simp only [FinancialUtils.better, Bool.or_eq_false_iff,
        Bool.and_eq_false_iff, decide_eq_false_iff_not, beq_eq_false_iff_ne,
        ne_eq] at hb
      omega
    · simp only [FinancialUtils.calculateSplits, hc]
    · intro j hj
      simp only [FinancialUtils.calculateSplits, hc]
      exact FinancialUtils.applyDrift_get_ne _ _ _ _ hj

theorem C2_drift_single_argmax_witness :
    ∃ i s, FinancialUtils.chooseSplit [⟨1, 33330⟩, ⟨2, 33330⟩, ⟨3, 33340⟩] = some (i, s) ∧
      ([⟨1, 33330⟩, ⟨2, 33330⟩, ⟨3, 33340⟩] : List SplitInput).get? i = some s ∧
      (∀ u ∈ ([⟨1, 33330⟩, ⟨2, 33330⟩, ⟨3, 33340⟩] : List SplitInput),
        u.percentage < s.percentage ∨
        (u.percentage = s.percentage ∧ s.payerId ≤ u.payerId)) ∧
      FinancialUtils.calculateSplits 10000 [⟨1, 33330⟩, ⟨2, 33330⟩, ⟨3, 33340⟩] =
        FinancialUtils.applyDrift i
          ((10000 : Int) - FinancialUtils.splitsSum
            (FinancialUtils.roundedSplits 10000 [⟨1, 33330⟩, ⟨2, 33330⟩, ⟨3, 33340⟩]))
          (FinancialUtils.roundedSplits 10000 [⟨1, 33330⟩, ⟨2, 33330⟩, ⟨3, 33340⟩]) ∧
      (∀ j, j ≠ i →
        (FinancialUtils.calculateSplits 10000 [⟨1, 33330⟩, ⟨2, 33330⟩, ⟨3, 33340⟩]).get? j =
          (FinancialUtils.roundedSplits 10000 [⟨1, 33330⟩, ⟨2, 33330⟩, ⟨3, 33340⟩]).get? j) :=
  C2_drift_single_argmax 10000 [⟨1, 33330⟩, ⟨2, 33330⟩, ⟨3, 33340⟩] (by decide)

/-- C3: with the ±0.01 tolerance, `validateSplits` rejects percentage sums
99.99 and 100.02 and accepts 100.00 and 99.999; a rejection for an
out-of-tolerance sum carries a message naming the computed sum; duplicate
payer ids and an empty split list are rejected. -/
theorem C3_validateSplits_tolerance :
    (FinancialUtils.validateSplits [⟨1, 33330⟩, ⟨2, 33330⟩, ⟨3, 33330⟩]).isValid = false ∧
    (FinancialUtils.validateSplits [⟨1, 33340⟩, ⟨2, 33340⟩, ⟨3, 33340⟩]).isValid = false ∧
    (FinancialUtils.validateSplits [⟨1, 33330⟩, ⟨2, 33330⟩, ⟨3, 33340⟩]).isValid = true ∧
    (FinancialUtils.validateSplits [⟨1, 33333⟩, ⟨2, 33333⟩, ⟨3, 33333⟩]).isValid = true ∧
    (∀ splits : List SplitInput, splits ≠ [] →
      (splits.map SplitInput.payerId).Nodup →
      (splits.any fun s => s.percentage == 0) = false →
      FinancialUtils.withinTolerance (FinancialUtils.percentSum splits) = false →
      FinancialUtils.validateSplits splits =
        ⟨false, FinancialUtils.invalidSumMessage (FinancialUtils.percentSum splits)⟩) ∧
    (FinancialUtils.validateSplits [⟨1, 50000⟩, ⟨1, 50000⟩]).isValid = false ∧
    (FinancialUtils.validateSplits ([] : List SplitInput)).isValid = false := by
  refine ⟨by decide, by decide, by decide, by decide, ?_, by decide, by decide⟩
  intro splits h1 h2 h3 h4
  have hne : splits.isEmpty = false := by
    cases splits with
    | nil => exact absurd rfl h1
    | cons a l => rfl
  simp only [FinancialUtils.validateSplits, hne, Bool.false_eq_true, if_false,
    h2, if_true, h3, h4]

theorem C3_validateSplits_tolerance_witness :
    FinancialUtils.validateSplits [⟨1, 33330⟩, ⟨2, 33330⟩, ⟨3, 33330⟩] =
      ⟨false, FinancialUtils.invalidSumMessage 99990⟩ :=
  C3_validateSplits_tolerance.2.2.2.2.1
    [⟨1, 33330⟩, ⟨2, 33330⟩, ⟨3, 33330⟩] (by decide) (by decide) (by decide) (by decide)

/-! ## Lemmas and claims about schedule generation -/

theorem monthIndex_dateOfMonthIndex (k d : Nat) :
    monthIndex (dateOfMonthIndex k d) = k := by
  simp only [monthIndex, dateOfMonthIndex]
  omega

theorem generatePaymentSchedule_get (start : SDate) (dueDay n i : Nat)
    (hi : i < n) :
    (DateUtils.generatePaymentSchedule start dueDay n).get? i =
      some ⟨(monthIndex start + i) % 12 + 1, (monthIndex start + i) / 12,
        ⟨(monthIndex start + i) / 12, (monthIndex start + i) % 12 + 1,
          min dueDay (daysInMonth ((monthIndex start + i) / 12)
            ((monthIndex start + i) % 12 + 1))⟩⟩ := by
  simp [DateUtils.generatePaymentSchedule, List.get?_eq_getElem?,
    List.getElem?_map, List.getElem?_range hi]

/-- The position of the i-th payment date in the purchase-month loop of
the credit-card branch of `ExpenseController.create` (lines 248–250). -/
def cardPaymentDate (e : ExpenseInput) (i : Nat) : SDate :=
  addMonthsJS (e.purchaseDate.getD e.startDate) i

/-- The due date the credit-card branch computes for the i-th installment
(lines 252–256). -/
def cardDueDate (e : ExpenseInput) (card : CreditCard) (i : Nat) : SDate :=
  DateUtils.calculateCreditCardDueDate (cardPaymentDate e i)
    card.closingDay card.dueDay

/-- C4: for a credit-card expense, each generated due date follows the
billing-cycle rule — a purchase on a day on or after the card
`closingDay` bills two months out (the cycle closes in the next month and
the due date is `dueDay` in the month after that close), a purchase before
`closingDay` bills one month out; the due day is `dueDay` clamped into the
target month; with closingDay 10 and dueDay 5, a purchase on 2025-01-10 is
due on 2025-03-05. -/
theorem C4_creditCard_billing_rule (e : ExpenseInput) (card : CreditCard)
    (htype : e.type = ExpenseType.CARTAO_CREDITO)
    (hcard : e.creditCard = some card)
    (i : Nat) (hi : i < jsOrNat e.numberOfInstallments 1) :
    (generateExpenseSchedule e).get? i =
      some ⟨(cardDueDate e card i).month, (cardDueDate e card i).year,
        cardDueDate e card i⟩ ∧
    (card.closingDay ≤ (cardPaymentDate e i).day →
      monthIndex (cardDueDate e card i) = monthIndex (cardPaymentDate e i) + 2) ∧
    ((cardPaymentDate e i).day < card.closingDay →
      monthIndex (cardDueDate e card i) = monthIndex (cardPaymentDate e i) + 1) ∧
    (cardDueDate e card i).day =
      min card.dueDay
        (daysInMonth (cardDueDate e card i).year (cardDueDate e card i).month) ∧
    DateUtils.calculateCreditCardDueDate ⟨2025, 1, 10⟩ 10 5 = ⟨2025, 3, 5⟩ := by
  refine ⟨?_, ?_, ?_, ?_, by decide⟩
  · simp [generateExpenseSchedule, htype, hcard, creditCardSchedule,
      List.get?_eq_getElem?, List.getElem?_map, List.getElem?_range hi,
      cardDueDate, cardPaymentDate]
  · intro hday
    simp only [cardDueDate, DateUtils.calculateCreditCardDueDate, if_pos hday,
      monthIndex_dateOfMonthIndex]
  · intro hday
    have hn : ¬ card.closingDay ≤ (cardPaymentDate e i).day := by omega
    simp only [cardDueDate, DateUtils.calculateCreditCardDueDate, if_neg hn,
      monthIndex_dateOfMonthIndex]
  · rfl

/-- A concrete credit-card expense: one installment purchased 2025-01-10
on a card closing on day 10 with due day 5. -/
def c4CardExpense : ExpenseInput :=
  ⟨ExpenseType.CARTAO_CREDITO, ⟨2025, 1, 10⟩, 10, some ⟨2025, 1, 10⟩,
    some 1, none, some ⟨10, 5⟩⟩

theorem C4_creditCard_billing_rule_witness :
    DateUtils.calculateCreditCardDueDate ⟨2025, 1, 10⟩ 10 5 = ⟨2025, 3, 5⟩ :=
  (C4_creditCard_billing_rule c4CardExpense ⟨10, 5⟩ rfl rfl 0 (by decide)).2.2.2.2

theorem sched31_get (y i : Nat) (hi : i < 12) :
    (DateUtils.generatePaymentSchedule ⟨y, 1, 31⟩ 31 12).get? i =
      some ⟨i + 1, y, ⟨y, i + 1, min 31 (daysInMonth y (i + 1))⟩⟩ := by
  rw [generatePaymentSchedule_get _ _ _ _ hi]
  have hm : monthIndex ⟨y, 1, 31⟩ = y * 12 := by simp [monthIndex]
  rw [hm]
  have e1 : (y * 12 + i) % 12 = i := by omega
  have e2 : (y * 12 + i) / 12 = y := by omega
  rw [e1, e2]

/-- C5: a recurring expense anchored on day 31 and started in January
yields 12 monthly entries; February is clamped to day 28 (29 in a leap
year); every 31-day month uses day 31; and in general the generated day is
the anchor day silently clamped to the last valid day of the target month
(generation is total — it never throws). -/
theorem C5_recurring_day_clamp (y : Nat) :
    (DateUtils.generatePaymentSchedule ⟨y, 1, 31⟩ 31 12).length = 12 ∧
    (DateUtils.generatePaymentSchedule ⟨y, 1, 31⟩ 31 12).get? 1 =
      some ⟨2, y, ⟨y, 2, if isLeapYear y then 29 else 28⟩⟩ ∧
    (∀ i ∈ [0, 2, 4, 6, 7, 9, 11],
      (DateUtils.generatePaymentSchedule ⟨y, 1, 31⟩ 31 12).get? i =
        some ⟨i + 1, y, ⟨y, i + 1, 31⟩⟩) ∧
    (∀ (start : SDate) (dueDay n : Nat),
      ∀ entry ∈ DateUtils.generatePaymentSchedule start dueDay n,
        entry.dueDate.day =
          min dueDay (daysInMonth entry.dueDate.year entry.dueDate.month)) := by
  refine ⟨?_, ?_, ?_, ?_⟩
  · simp [DateUtils.generatePaymentSchedule]
  · rw [sched31_get y 1 (by omega)]
    cases h : isLeapYear y <;> simp [daysInMonth, h]
  · intro i hi
    fin_cases hi <;> rw [sched31_get _ _ (by omega)] <;> simp [daysInMonth]
  · intro start dueDay n entry he
    simp only [DateUtils.generatePaymentSchedule, List.mem_map,
      List.mem_range] at he
    obtain ⟨i, _, rfl⟩ := he
    rfl

theorem C5_recurring_day_clamp_witness :
    (DateUtils.generatePaymentSchedule ⟨2025, 1, 31⟩ 31 12).get? 1 =
      some ⟨2, 2025, ⟨2025, 2, 28⟩⟩ := by
  have h := (C5_recurring_day_clamp 2025).2.1
  simpa [isLeapYear] using h

/-! ## Claims about the number and shape of generated payments -/

/-- A credit-card expense carrying `numberOfMonths = 6` but no
`numberOfInstallments`. -/
def c6CardExpense : ExpenseInput :=
  ⟨ExpenseType.CARTAO_CREDITO, ⟨2025, 1, 10⟩, 10, some ⟨2025, 1, 10⟩,
    none, some 6, some ⟨10, 5⟩⟩

/-- C6 counterexample: for a credit-card expense with `numberOfMonths = 6`
and no `numberOfInstallments`, the controller generates 1 payment, not 6 —
the credit-card branch ignores `numberOfMonths`. -/
theorem C6_counterexample_card_ignores_months :
    c6CardExpense.numberOfMonths = some 6 ∧
    (generateExpenseSchedule c6CardExpense).length = 1 ∧
    (generateExpenseSchedule c6CardExpense).length ≠ 6 := by decide

/-- A one-time expense started 2025-03-10 with no counts. -/
def oneTimeMarch : ExpenseInput :=
  ⟨ExpenseType.UNICA, ⟨2025, 3, 10⟩, 10, none, none, none, none⟩

/-- C6 (amended): the number of generated payments is
`numberOfInstallments` (else 1) for a credit-card expense with a linked
card — `numberOfMonths` is ignored there — and otherwise `numberOfMonths`
when given and non-zero, else `numberOfInstallments` when given and
non-zero, else 12 for recurring types and 1 otherwise; a one-time expense
started 2025-03-10 yields exactly one payment for month 3 of 2025. -/
theorem C6_amended_payment_count :
    (∀ e : ExpenseInput,
      (generateExpenseSchedule e).length =
        match e.type, e.creditCard with
        | ExpenseType.CARTAO_CREDITO, some _ => jsOrNat e.numberOfInstallments 1
        | _, _ => jsOrNat e.numberOfMonths (jsOrNat e.numberOfInstallments
            (if e.type = ExpenseType.RECORRENTE_FIXA ∨
                e.type = ExpenseType.RECORRENTE_VARIAVEL then 12 else 1))) ∧
    (generateExpenseSchedule oneTimeMarch).map (fun s => (s.month, s.year)) =
      [(3, 2025)] := by
  constructor
  · intro e
    rcases e with ⟨t, sd, dd, pd, ni, nm, cc⟩
    cases t <;> cases cc <;>
      simp [generateExpenseSchedule, creditCardSchedule, scheduleCount,
        DateUtils.generatePaymentSchedule]
  · decide

/-- A three-installment credit-card expense purchased 2025-01-31 on a card
closing on day 1 with due day 5. -/
def c7CardExpense : ExpenseInput :=
  ⟨ExpenseType.CARTAO_CREDITO, ⟨2025, 1, 31⟩, 10, some ⟨2025, 1, 31⟩,
    some 3, none, some ⟨1, 5⟩⟩

/-- C7: every payment row carries the installment amount and status
`PENDING`, but the (month, year) pairs of the schedule of one expense are NOT
always distinct: for a purchase on 2025-01-31 with 3 installments on a
card closing on day 1, JS month stepping turns Jan 31 + 1 month into
Mar 3, which lands in the same billing cycle as Mar 31, so installments 2
and 3 are both due in month 5 of 2025 — violating the (expenseId, month,
year) uniqueness the schema requires. -/
theorem C7_monthYear_not_unique :
    createPayments c7CardExpense 10000 =
      [⟨3, 2025, 10000, ⟨2025, 3, 5⟩, ExpensePaymentStatus.PENDING⟩,
       ⟨5, 2025, 10000, ⟨2025, 5, 5⟩, ExpensePaymentStatus.PENDING⟩,
       ⟨5, 2025, 10000, ⟨2025, 5, 5⟩, ExpensePaymentStatus.PENDING⟩] ∧
    ¬ ((generateExpenseSchedule c7CardExpense).map fun s =>
        (s.month, s.year)).Nodup := by decide

/-! ## Claims about payment status transitions -/

/-- An `OVERDUE` payment. -/
def c8Overdue : PaymentState := ⟨ExpensePaymentStatus.OVERDUE, none, 100⟩

/-- C8 counterexample: `PaymentController.revertPayment` applied to an
`OVERDUE` payment produces the transition `OVERDUE → PENDING`, which is
not among the transitions the claim allows (revert is only specified from
`PAID`). -/
theorem C8_counterexample_revert_overdue :
    applyPaymentOp PayOp.revert c8Overdue =
      ⟨ExpensePaymentStatus.PENDING, none, 100⟩ ∧
    specAllowed PayOp.revert c8Overdue
      (applyPaymentOp PayOp.revert c8Overdue) = false := by decide

/-- C8 (amended): every status change produced by the payment operations
is one of: `FUTURE→PENDING` once the due date arrived, `PENDING→OVERDUE`
once the due date passed, any non-`PAID`→`PAID` on explicit payment
(setting `paidAt`), any status→`PENDING` on explicit revert (clearing
`paidAt`), and `OVERDUE→PENDING` when the due date is moved out of the
past; no operation produces any other change. -/
theorem C8_amended_transitions :
    ∀ (op : PayOp) (s : PaymentState),
      codeAllowed op s (applyPaymentOp op s) = true := by
  intro op s
  rcases s with ⟨st, pa, dd⟩
  cases op with
  | pay paidAtArg now =>
    cases st <;> simp [applyPaymentOp, markAsPaid, codeAllowed]
  | revert =>
    cases st <;> simp [applyPaymentOp, revertPayment, codeAllowed]
  | setDueDate newDue now =>
    cases st <;>
      simp only [applyPaymentOp, updateDueDate, codeAllowed] <;>
      split_ifs <;> simp_all
  | refresh now =>
    cases st <;>
      simp only [applyPaymentOp, tickOverdue, tickFuture, codeAllowed] <;>
      split_ifs <;> simp_all

/-! ## Claims about the split invariant under update -/

/-- A divided expense of 100.00 with two 50% splits of 50.00 each. -/
def c9Divided : ExpenseState :=
  ⟨10000, true, [⟨1, 50000, 5000⟩, ⟨2, 50000, 5000⟩]⟩

/-- An update request that doubles the installment amount without
supplying splits. -/
def c9AmountOnly : UpdateExpenseReq := ⟨some 20000, none, none⟩

/-- C9 counterexample: updating only `installmentAmount` (no `splits` in
the request) leaves the persisted split rows untouched, so afterwards the
splits of a divided expense sum to the old amount, not the new one. -/
theorem C9_counterexample_stale_splits :
    (updateExpense c9Divided c9AmountOnly).isDivided = true ∧
    (updateExpense c9Divided c9AmountOnly).installmentAmount = 20000 ∧
    FinancialUtils.splitsSum (updateExpense c9Divided c9AmountOnly).splits =
      (10000 : Int) ∧
    FinancialUtils.splitsSum (updateExpense c9Divided c9AmountOnly).splits ≠
      ((updateExpense c9Divided c9AmountOnly).installmentAmount : Int) := by
  decide

/-- C9 (amended): the split-sum invariant holds after creation (for any
validated split set) and after any update that supplies both `splits` and
`isDivided = true` — the new splits sum to the amount the controller
distributes, `updateData.installmentAmount || existing.installmentAmount`;
but an update without `splits` keeps the old split rows verbatim, so an
update that changes only `installmentAmount` breaks the invariant. -/
theorem C9_amended_split_invariant :
    (∀ (amountCents : Nat) (splits : List SplitInput),
      (FinancialUtils.validateSplits splits).isValid = true →
      FinancialUtils.splitsSum (FinancialUtils.calculateSplits amountCents splits) =
        (amountCents : Int)) ∧
    (∀ (e : ExpenseState) (u : UpdateExpenseReq) (s : List SplitInput),
      u.splits = some s → u.isDivided = some true → s ≠ [] →
      FinancialUtils.splitsSum (updateExpense e u).splits =
        (jsOrNat u.installmentAmount e.installmentAmount : Int)) ∧
    (∀ (e : ExpenseState) (u : UpdateExpenseReq),
      u.splits = none → (updateExpense e u).splits = e.splits) := by
  refine ⟨?_, ?_, ?_⟩
  · intro amountCents splits hv
    cases splits with
    | nil => simp [FinancialUtils.validateSplits] at hv
    | cons a rest => exact FinancialUtils.calculateSplits_sum_eq _ _ (by simp)
  · intro e u s hs hd hne
    simp only [updateExpense, hs, hd]
    exact FinancialUtils.calculateSplits_sum_eq _ _ hne
  · intro e u hs
    simp [updateExpense, hs]

theorem C9_amended_split_invariant_witness :
    FinancialUtils.splitsSum
      (FinancialUtils.calculateSplits 10000 [⟨1, 33330⟩, ⟨2, 33330⟩, ⟨3, 33340⟩]) =
      (10000 : Int) ∧
    FinancialUtils.splitsSum
      (updateExpense c9Divided ⟨some 20000, some true, some [⟨1, 60000⟩, ⟨2, 40000⟩]⟩).splits =
      (20000 : Int) ∧
    (updateExpense c9Divided c9AmountOnly).splits = c9Divided.splits :=
  ⟨C9_amended_split_invariant.1 10000 [⟨1, 33330⟩, ⟨2, 33330⟩, ⟨3, 33340⟩] (by decide),
   C9_amended_split_invariant.2.1 c9Divided
     ⟨some 20000, some true, some [⟨1, 60000⟩, ⟨2, 40000⟩]⟩
     [⟨1, 60000⟩, ⟨2, 40000⟩] rfl rfl (by decide),
   C9_amended_split_invariant.2.2 c9Divided c9AmountOnly rfl⟩

/-! ## Claims about the auth rate limiter -/

theorem allowedCount_bound (maxAttempts windowMs : Nat) :
    ∀ (ts : List Nat) (c r : Nat), (∀ t ∈ ts, t ≤ r) → c ≤ maxAttempts →
      allowedCount maxAttempts windowMs (some ⟨c, r⟩) ts ≤ maxAttempts - c := by
  intro ts
  induction ts with
  | nil => intro c r _ _; simp [allowedCount]
  | cons t ts ih =>
    intro c r hall hc
    have ht : t ≤ r := hall t (by simp)
    have hnr : ¬ r < t := by omega
    by_cases hfull : maxAttempts ≤ c
    · simp only [allowedCount, authRateLimitStep, if_neg hnr, if_pos hfull]
      have hrec := ih c r (fun u hu => hall u (by simp [hu])) hc
      simp only [allowedCount] at hrec ⊢
      simpa using hrec
    · have hlt : c < maxAttempts := by omega
      simp only [allowedCount, authRateLimitStep, if_neg hnr, if_neg hfull,
        if_pos rfl]
      have hrec := ih (c + 1) r (fun u hu => hall u (by simp [hu])) (by omega)
      simp only [allowedCount] at hrec ⊢
      simp only [if_true]
      omega

/-- C10: for a fixed client IP, the auth rate limiter passes at most
`maxAttempts` requests through per window (a window starts at the
first tracked request and ends `windowMs` later); a further request while
the entry is full and unexpired is answered with HTTP 429 and leaves the
entry unchanged (it does not reach the handler); once the reset time has
passed the entry is discarded, so the next request passes again with a
fresh count of 1. -/
theorem C10_authRateLimit_window (maxAttempts windowMs : Nat)
    (hmax : 1 ≤ maxAttempts) :
    (∀ (t0 : Nat) (ts : List Nat), (∀ t ∈ ts, t ≤ t0 + windowMs) →
      allowedCount maxAttempts windowMs none (t0 :: ts) ≤ maxAttempts) ∧
    (∀ (c r now : Nat), maxAttempts ≤ c → now ≤ r →
      authRateLimitStep maxAttempts windowMs (some ⟨c, r⟩) now =
        (some ⟨c, r⟩, RateLimitResult.reject 429)) ∧
    (∀ (c r now : Nat), r < now →
      authRateLimitStep maxAttempts windowMs (some ⟨c, r⟩) now =
        (some ⟨1, now + windowMs⟩, RateLimitResult.allow)) := by
  refine ⟨?_, ?_, ?_⟩
  · intro t0 ts hall
    simp only [allowedCount, authRateLimitStep]
    have hrec := allowedCount_bound maxAttempts windowMs ts 1 (t0 + windowMs)
      hall hmax
    simp only [allowedCount] at hrec ⊢
    simp only [if_true]
    omega
  · intro c r now hfull hle
    have hnr : ¬ r < now := by omega
    simp [authRateLimitStep, if_neg hnr, if_pos hfull]
  · intro c r now hgt
    simp [authRateLimitStep, if_pos hgt]

theorem C10_authRateLimit_window_witness :
    allowedCount 5 900000 none [0, 1, 2, 3, 4, 5, 6] ≤ 5 ∧
    authRateLimitStep 5 900000 (some ⟨5, 900000⟩) 10 =
      (some ⟨5, 900000⟩, RateLimitResult.reject 429) ∧
    authRateLimitStep 5 900000 (some ⟨5, 900000⟩) 900001 =
      (some ⟨1, 1800001⟩, RateLimitResult.allow) := by
  obtain ⟨h1, h2, h3⟩ := C10_authRateLimit_window 5 900000 (by decide)
  exact ⟨h1 0 [1, 2, 3, 4, 5, 6] (by decide),
    h2 5 900000 10 (by decide) (by decide),
    h3 5 900000 900001 (by decide)⟩

end Partilio
